import Mathlib

set_option autoImplicit false

/-!
Verification development for the no-dues clearance workflow application.

The definitions below are a shallow embedding of the JavaScript source:
* JSON payload values are modelled by the inductive `JsVal`; JS objects are
  association lists, JS `undefined` (an absent field) is `Option.none`.
* ISO date strings are modelled by their epoch-millisecond values (`Int`),
  which is order-isomorphic to the comparisons `new Date(a) - new Date(b)`
  performed by the source.
* `Array.prototype.sort(cmp)` with a consistent comparator is modelled by a
  stable insertion sort `sortBy` over the boolean relation derived from the
  comparator.
* Interactions with the clock (`Date.now()`, `new Date().toISOString()`),
  fresh identifiers, the filesystem and the PDF renderer are passed in as
  explicit parameters, so every function is a pure Lean function of its
  inputs.
-/

/-- JavaScript/JSON values, used for the duck-typed sub-form payloads. -/
inductive JsVal where
  | jnull : JsVal
  | jbool : Bool → JsVal
  | jnum : Int → JsVal
  | jstr : String → JsVal
  | jarr : List JsVal → JsVal
  | jobj : List (String × JsVal) → JsVal

/-- JS truthiness of a value (`!!v`). Objects and arrays are always truthy. -/
def JsVal.truthy : JsVal → Bool
  | .jnull => false
  | .jbool b => b
  | .jnum n => n != 0
  | .jstr s => s != ""
  | .jarr _ => true
  | .jobj _ => true

/-- The check `v && typeof v === 'object'` used throughout the source:
`typeof` is `'object'` for objects, arrays and `null`, and the truthiness
conjunct rules `null` out. -/
def JsVal.isTruthyObject : JsVal → Bool
  | .jarr _ => true
  | .jobj _ => true
  | _ => false

/-- The same check applied to a possibly-absent (`undefined`) value, as in
`!x || typeof x !== 'object'` over an optional request field. -/
def validPayload : Option JsVal → Bool
  | some v => v.isTruthyObject
  | none => false

/-- One entry of `assignedForms`. -/
structure AssignedForm where
  title : String
  path : String
deriving DecidableEq, Repr

/-- The `hodApproval` record attached by the HOD workflow. -/
structure HodApproval where
  approvedBy : String
  approvedAt : Int
deriving DecidableEq, Repr

/-- The `itProcessing` record attached by the IT workflow. -/
structure ItProcessing where
  action : String
  processedBy : String
  processedAt : Int
  remarks : String
deriving DecidableEq, Repr

/-- A certificate descriptor as stored in `certificates.json` or inside a
case record. -/
structure Certificate where
  id : String := ""
  employeeId : String := ""
  formId : String := ""
  formType : String := ""
  filename : String := ""
  filepath : String := ""
  generatedAt : Option Int := none
  fileSize : Nat := 0
deriving DecidableEq, Repr

/-- A case record (one element of `pending_forms.json`). String fields that
the source defaults to `''` are plain strings; fields the source leaves
`undefined` until a later transition are `Option`s. -/
structure Form where
  formId : String := ""
  employeeId : String := ""
  status : String := ""
  name : String := ""
  employeeName : String := ""
  email : String := ""
  department : String := ""
  noDuesType : String := ""
  reason : String := ""
  orderLetter : String := ""
  submittedBy : String := ""
  remark : String := ""
  submissionDate : Option Int := none
  lastUpdated : Int := 0
  finalSubmittedAt : Option Int := none
  assignedForms : Option (List AssignedForm) := none
  formResponses : Option (List (String × JsVal)) := none
  hodApproval : Option HodApproval := none
  itProcessing : Option ItProcessing := none
  certificates : Option (List Certificate) := none
  rejectionReason : Option String := none
  rejectedAt : Option Int := none

/-! ## Sorting

`Array.prototype.sort(cmp)` for the numeric comparators used in the source
(`new Date(x) - new Date(y)`) orders the array by the corresponding key;
the relative order of elements with equal keys is implementation defined.
We model it by a stable insertion sort over the boolean relation
`le a b` = "a may stay in front of b". -/

/-- Insert an element in front of the first element it is `le`-related to. -/
def insertBy {α : Type} (le : α → α → Bool) (a : α) : List α → List α
  | [] => [a]
  | b :: bs => if le a b then a :: b :: bs else b :: insertBy le a bs

/-- Insertion sort by the boolean relation `le`. -/
def sortBy {α : Type} (le : α → α → Bool) : List α → List α
  | [] => []
  | a :: as => insertBy le a (sortBy le as)

/-! ## Form Aggregation Engine (`getLatestFormForEmployee`) -/

/-- The sort key `new Date(f.submissionDate || f.lastUpdated)` used by the
aggregation engine: `submissionDate` falling back to `lastUpdated`. -/
def Form.sortKey (f : Form) : Int :=
  f.submissionDate.getD f.lastUpdated

/-- `getLatestFormForEmployee(allForms, employeeId, allowedStatuses)`:
filter by exact `employeeId` match (the JS `f && ...` null guard is
subsumed by typing), optionally filter by exact membership of `status` in
the allow-list, sort descending by the date key and take the head, with
`|| null` modelled by `Option`. -/
def getLatestFormForEmployee (allForms : List Form) (employeeId : String)
    (allowedStatuses : Option (List String) := none) : Option Form :=
  let employeeForms := allForms.filter (fun f => f.employeeId == employeeId)
  let filtered := match allowedStatuses with
    | some statuses => employeeForms.filter (fun f => statuses.contains f.status)
    | none => employeeForms
  (sortBy (fun a b => b.sortKey ≤ a.sortKey) filtered).head?

/-- The candidate list after both filters, for reasoning about
`getLatestFormForEmployee`. -/
def candidateForms (allForms : List Form) (employeeId : String)
    (allowedStatuses : Option (List String)) : List Form :=
  let employeeForms := allForms.filter (fun f => f.employeeId == employeeId)
  match allowedStatuses with
  | some statuses => employeeForms.filter (fun f => statuses.contains f.status)
  | none => employeeForms

/-! ## Submission Validator (`POST /submit-no-dues`) -/

/-- The active-status allow-list from the submission handler (exact string
membership, both casings of pending listed explicitly). -/
def activeStatuses : List String :=
  ["Pending", "pending", "Submitted to HOD", "Submitted to IT", "approved"]

/-- The request fields of a new submission, after the handler's
session-fallback extraction (`bodyData.x || sessionUser.x || ''`). -/
structure Submission where
  name : String
  employeeId : String
  email : String
  department : String
  noDuesType : String
  reason : String

/-- Outcome of the submit-no-dues handler (after the body/session guards,
which are external to the core). -/
inductive SubmitResult where
  | missingFile : SubmitResult
  | missingFields : SubmitResult
  | conflict : String → SubmitResult
  | created : List Form → String → SubmitResult

def SubmitResult.isConflict : SubmitResult → Bool
  | .conflict _ => true
  | _ => false

/-- The new case record built by the handler on success. -/
def newCaseForm (s : Submission) (orderLetterFile : String) (now : Int)
    (freshId : String) : Form :=
  { formId := freshId
    name := s.name
    employeeName := s.name
    employeeId := s.employeeId
    email := s.email
    department := s.department
    noDuesType := s.noDuesType
    reason := s.reason
    orderLetter := orderLetterFile
    status := "pending"
    submissionDate := some now
    submittedBy := s.employeeId
    lastUpdated := now
    assignedForms := some []
    formResponses := some []
    remark := "" }

/-- Core of the `POST /submit-no-dues` handler: file-presence check, the
required-field check (JS falsiness of the empty string), the duplicate
active-application check through the aggregation engine, and creation plus
append of the new case. `orderLetterFile` is the stored upload name
(`none` models a missing `req.file`); `now` and `freshId` model
`Date.now()`. -/
def submitNoDues (pendingForms : List Form) (s : Submission)
    (orderLetterFile : Option String) (now : Int) (freshId : String) :
    SubmitResult :=
  match orderLetterFile with
  | none => .missingFile
  | some file =>
    if s.name == "" || s.employeeId == "" || s.email == "" ||
        s.department == "" || s.noDuesType == "" then
      .missingFields
    else
      match getLatestFormForEmployee pendingForms s.employeeId (some activeStatuses) with
      | some existingForm =>
        .conflict ("You already have a " ++ existingForm.status ++
          " application (" ++ existingForm.formId ++ ")")
      | none =>
        .created (pendingForms ++ [newCaseForm s file now freshId]) freshId

/-! ## Timeline / Projection Builder (`buildTimelineData`,
`getFormsCompletionStatus`) -/

/-- One event of the tracking timeline. -/
structure TimelineEvent where
  step : String
  title : String
  date : Int
  status : String
  details : String
deriving DecidableEq, Repr

/-- The submitted event pushed when `submissionDate` is set. -/
def submittedEvent (f : Form) (d : Int) : TimelineEvent :=
  { step := "submitted", title := "Application Submitted",
    date := d, status := "completed",
    details := "Application " ++ f.formId ++ " submitted for " ++
      f.noDuesType ++ " clearance" }

/-- The IT-initial-review event pushed when `status` differs from
`'pending'`. -/
def itReviewedEvent (f : Form) : TimelineEvent :=
  let reviewStatus := if f.status = "rejected" then "rejected" else "completed"
  { step := "it_reviewed", title := "IT Initial Review",
    date := f.lastUpdated, status := reviewStatus,
    details :=
      if f.remark ≠ "" then f.remark
      else if reviewStatus = "rejected" then "Application rejected by IT"
      else "Application reviewed and approved by IT department" }

/-- The forms-assigned event pushed when `assignedForms` is non-empty. -/
def formsAssignedEvent (f : Form) (forms : List AssignedForm) : TimelineEvent :=
  { step := "forms_assigned", title := "Forms Assigned",
    date := f.lastUpdated, status := "completed",
    details := toString forms.length ++ " forms assigned: " ++
      String.intercalate ", " (forms.map (·.title)) }

/-- The forms-completed event pushed when `formResponses` is non-empty. -/
def formsCompletedEvent (f : Form) (responses : List (String × JsVal)) :
    TimelineEvent :=
  { step := "forms_completed", title := "Forms Completed",
    date := f.finalSubmittedAt.getD f.lastUpdated, status := "completed",
    details := "Employee completed " ++ toString responses.length ++
      " forms and submitted to HOD" }

/-- The HOD-approval event pushed when `hodApproval` is present. -/
def hodApprovedEvent (approval : HodApproval) : TimelineEvent :=
  { step := "hod_approved", title := "HOD Approval",
    date := approval.approvedAt, status := "completed",
    details := "Approved by HOD: " ++ approval.approvedBy }

/-- The IT-final-processing event pushed when `itProcessing` is present. -/
def itProcessingEvent (processing : ItProcessing) : TimelineEvent :=
  let processingStatus :=
    if processing.action = "completed" then "completed" else "rejected"
  { step := "it_processing", title := "IT Final Processing",
    date := processing.processedAt, status := processingStatus,
    details :=
      if processing.remarks ≠ "" then processing.remarks
      else "Forms " ++ processing.action ++ " by " ++ processing.processedBy }

/-- The certificates-generated event pushed for a completed case carrying
a certificates list. Its date falls back to a fresh clock read when
`itProcessing` is absent. -/
def certificatesEvent (f : Form) (now : Int) : TimelineEvent :=
  { step := "certificates_generated", title := "Certificates Generated",
    date := match f.itProcessing with
      | some processing => processing.processedAt
      | none => now,
    status := "completed",
    details := toString (f.certificates.getD []).length ++
      " digital certificates generated and ready for download" }

/-- `buildTimelineData(formData)`. The clock read
`new Date().toISOString()` used as the fallback date of the
certificates-generated event is passed in as `now`. -/
def buildTimelineData (f : Form) (now : Int) : List TimelineEvent :=
  let t0 : List TimelineEvent := []
  let t1 := match f.submissionDate with
    | some d => t0 ++ [submittedEvent f d]
    | none => t0
  let t2 := if f.status ≠ "pending" then t1 ++ [itReviewedEvent f] else t1
  let t3 := match f.assignedForms with
    | some forms =>
      if forms.length > 0 then t2 ++ [formsAssignedEvent f forms] else t2
    | none => t2
  let t4 := match f.formResponses with
    | some responses =>
      if responses.length > 0 then t3 ++ [formsCompletedEvent f responses]
      else t3
    | none => t3
  let t5 := match f.hodApproval with
    | some approval => t4 ++ [hodApprovedEvent approval]
    | none => t4
  let t6 := match f.itProcessing with
    | some processing => t5 ++ [itProcessingEvent processing]
    | none => t5
  let t7 :=
    if f.status = "IT Completed" ∧ f.certificates.isSome then
      t6 ++ [certificatesEvent f now]
    else t6
  sortBy (fun a b => a.date ≤ b.date) t7

/-- One row of the forms-completion projection. `dataKey` is `undefined`
for an unknown title. -/
structure FormStatusEntry where
  title : String
  path : String
  status : String
  lastUpdated : Int
  dataKey : Option String
  hasData : Bool
deriving DecidableEq, Repr

/-- The fixed title-to-key lookup table of `getFormsCompletionStatus`. -/
def formTitleMapping (title : String) : Option String :=
  if title = "Disposal Form" then some "disposalFormData"
  else if title = "E-File" then some "efileFormData"
  else if title = "Form 365 - Transfer" then some "form365TransferData"
  else if title = "Form 365 - Disposal" then some "form365Data"
  else none

/-- `getFormsCompletionStatus(formData)`: map each assigned form to a
completion row; completed iff the title maps to a key, `formResponses`
exists, and the stored value is truthy. -/
def getFormsCompletionStatus (f : Form) : List FormStatusEntry :=
  match f.assignedForms with
  | none => []
  | some forms =>
    forms.map (fun form =>
      let formKey := formTitleMapping form.title
      let isCompleted :=
        match formKey, f.formResponses with
        | some key, some responses =>
          match responses.find? (fun p => p.1 == key) with
          | some p => p.2.truthy
          | none => false
        | _, _ => false
      { title := form.title
        path := form.path
        status := if isCompleted then "completed" else "pending"
        lastUpdated := f.lastUpdated
        dataKey := formKey
        hasData := isCompleted })

/-- Outcome of `GET /tracking-details` (after the session guards). -/
inductive TrackingResult where
  | noApplication : TrackingResult
  | ok : String → String → List TimelineEvent → List FormStatusEntry →
      TrackingResult
deriving DecidableEq, Repr

/-- Core of the `GET /tracking-details` handler: resolve the current case
through the aggregation engine; with no case, answer success with
`hasApplication: false` (not an error); otherwise answer the timeline and
forms projection. -/
def trackingDetails (pendingForms : List Form) (employeeId : String)
    (now : Int) : TrackingResult :=
  match getLatestFormForEmployee pendingForms employeeId none with
  | none => .noApplication
  | some f => .ok f.formId f.status (buildTimelineData f now)
      (getFormsCompletionStatus f)

/-! ## Final submit (`POST /final-submit`) -/

/-- Outcome of the final-submit handler (after the session guards). -/
inductive FinalSubmitResult where
  | notFound : FinalSubmitResult
  | invalidDisposal : FinalSubmitResult
  | invalidEfile : FinalSubmitResult
  | invalidForm365 : FinalSubmitResult
  | ok : List Form → String → FinalSubmitResult

/-- Replace the value under `key` if present, else append — JS object
member assignment `obj[key] = v` on an association list. -/
def setKey (m : List (String × JsVal)) (key : String) (v : JsVal) :
    List (String × JsVal) :=
  if m.any (fun p => p.1 == key) then
    m.map (fun p => if p.1 == key then (key, v) else p)
  else m ++ [(key, v)]

/-- The mutation final-submit applies to the selected case record. -/
def finalizeForm (base : Form) (disposalForm efileForm : JsVal)
    (form365Transfer form365Disposal : Option JsVal) (now : Int) : Form :=
  let responses0 := base.formResponses.getD []
  let responses1 := setKey responses0 "disposalFormData" disposalForm
  let responses2 := setKey responses1 "efileFormData" efileForm
  let responses3 := match form365Transfer with
    | some v => if v.isTruthyObject then setKey responses2 "form365TransferData" v
        else responses2
    | none => responses2
  let responses4 := match form365Disposal with
    | some v => if v.isTruthyObject then setKey responses3 "form365Data" v
        else responses3
    | none => responses3
  { base with
      formResponses := some responses4
      status := "Submitted to HOD"
      finalSubmittedAt := some now
      lastUpdated := now }

/-- Core of the `POST /final-submit` handler: resolve the latest case for
the employee (no status filter), locate it by `formId`, validate the three
payload groups, then mutate and store the record in place. -/
def finalSubmit (pendingForms : List Form) (employeeId : String)
    (disposalForm efileForm form365Transfer form365Disposal : Option JsVal)
    (now : Int) : FinalSubmitResult :=
  match getLatestFormForEmployee pendingForms employeeId none with
  | none => .notFound
  | some latestForm =>
    let formIndex := pendingForms.findIdx (fun f => f.formId == latestForm.formId)
    match pendingForms[formIndex]? with
    | none => .notFound
    | some form =>
      if !validPayload disposalForm then .invalidDisposal
      else if !validPayload efileForm then .invalidEfile
      else if !validPayload form365Transfer && !validPayload form365Disposal then
        .invalidForm365
      else
        match disposalForm, efileForm with
        | some dv, some ev =>
          let updated := finalizeForm form dv ev form365Transfer form365Disposal now
          .ok (pendingForms.set formIndex updated) form.formId
        | _, _ => .invalidDisposal

/-! ## History Archival (`moveCompletedFormToHistory`) -/

/-- The `preservedData` snapshot of a history entry. `certificates` is an
`Option` so that the `?.certificates` optional-chaining checks of the read
paths can distinguish a missing list from an empty one. -/
structure PreservedData where
  certificates : Option (List Certificate)
  hodApproval : Option HodApproval
  itProcessing : Option ItProcessing
  assignedForms : List AssignedForm
  formResponses : List (String × JsVal)

/-- A history entry: the spread of the archived case record (`form`) plus
the archival tags. -/
structure HistoryEntry where
  form : Form
  completedAt : Int
  finalStatus : String
  historyType : String
  preservedData : Option PreservedData

/-- The history entry built by `moveCompletedFormToHistory`: the spread of
the case record, the archival tags, and the `preservedData` snapshot with
the preservation defaults (`|| []`, `|| null`, `|| {}`). -/
def archiveEntry (formData : Form) (now : Int) : HistoryEntry :=
  { form := formData
    completedAt := now
    finalStatus := formData.status
    historyType := "completed_application"
    preservedData := some {
      certificates := some (formData.certificates.getD [])
      hodApproval := formData.hodApproval
      itProcessing := formData.itProcessing
      assignedForms := formData.assignedForms.getD []
      formResponses := formData.formResponses.getD [] } }

/-- `moveCompletedFormToHistory(employeeId, formData)` restricted to its
data transformation: build the history entry and push it onto the loaded
history collection. -/
def moveCompletedFormToHistory (history : List HistoryEntry) (formData : Form)
    (now : Int) : List HistoryEntry :=
  history ++ [archiveEntry formData now]

/-! ## Certificate Generation Pipeline (`generateFormCertificates`,
`createFormCertificatePDF`) -/

/-- Per-entry outcome record, as built inside the pipeline map: success
with file descriptor or failure with reason. -/
inductive CertOutcome where
  | success : Certificate → CertOutcome
  | failed : String → String → CertOutcome

/-- The per-entry outcome records (the settled promises): the try/catch of
the map converts each render result into a success or failure record. -/
def certOutcomes (render : String → JsVal → Except String Certificate)
    (entries : List (String × JsVal)) : List CertOutcome :=
  entries.map (fun p =>
    match render p.1 p.2 with
    | .ok cert => CertOutcome.success cert
    | .error msg => CertOutcome.failed p.1 msg)

/-- The successful certificates collected from the settled outcomes. -/
def successfulCerts (results : List CertOutcome) : List Certificate :=
  results.filterMap (fun r =>
    match r with
    | .success cert => some cert
    | .failed _ _ => none)

/-- `generateFormCertificates(formId, formResponses)`. The effectful
per-entry renderer `createFormCertificatePDF` (filesystem, timeout and
size enforcement) is abstracted as the oracle `render`, giving each
entry's artifact or failure reason; the surrounding `try/catch` of the map
converts either into an outcome record, so one entry's failure never
escapes to the other entries (the JS `Promise.allSettled` then sees only
fulfilled promises). The whole call throws (`Except.error`) on an invalid
form id, when no valid entry exists, and when the success list is
empty. -/
def generateFormCertificates
    (render : String → JsVal → Except String Certificate)
    (formId : String) (formResponses : List (String × JsVal)) :
    Except String (List Certificate) :=
  if formId == "" then .error "Invalid form ID provided"
  else
    let validFormTypes := formResponses.filter (fun p => p.2.isTruthyObject)
    if validFormTypes.isEmpty then .error "No valid form responses found"
    else
      let certificates := successfulCerts (certOutcomes render validFormTypes)
      if certificates.isEmpty then
        .error "No certificates were generated successfully"
      else .ok certificates

/-- The filename built by `createFormCertificatePDF`:
`formId_formType_timestamp_contentHash.pdf`, where the eight-character
`contentHash` is a hex digest of `formId-formType-timestamp`. The digest
function (md5) is abstracted as `hashHex`; `formData` is the rendered
content, which the source receives but never feeds into the name. The ids
are the already-sanitized strings. -/
def certFileName (hashHex : String → String) (formId formType : String)
    (formData : JsVal) (timestamp : Nat) : String :=
  let _ := formData
  let contentHash :=
    (hashHex (formId ++ "-" ++ formType ++ "-" ++ toString timestamp)).take 8
  formId ++ "_" ++ formType ++ "_" ++ toString timestamp ++ "_" ++
    contentHash ++ ".pdf"

/-! ## Certificate download (`GET /certificates/:certId/download`) -/

/-- Outcome of the download handler (after the session guards; the actual
byte streaming is external). -/
inductive DownloadResult where
  | notFound : DownloadResult
  | forbidden : DownloadResult
  | ok : Certificate → DownloadResult

/-- The composite id under which a preserved certificate is addressed. -/
def histCertId (formId formType : String) : String :=
  "hist_" ++ formId ++ "_" ++ formType

/-- The JS `s.startsWith(p)` check, modelled over the character lists. -/
def strStartsWith (s p : String) : Bool :=
  p.data.isPrefixOf s.data

/-- The history scan of the download handler: first entry owned by the
employee that carries preserved certificates and contains a certificate
whose composite id matches, reconstructed with the entry's `employeeId`
(the nested `for` loops with `break`). -/
def searchHistoryCert (history : List HistoryEntry) (employeeId certId : String) :
    Option Certificate :=
  match history with
  | [] => none
  | entry :: rest =>
    let hit := match entry.preservedData with
      | some preserved =>
        match preserved.certificates with
        | some certs =>
          if entry.form.employeeId == employeeId then
            match certs.find? (fun c =>
                histCertId entry.form.formId c.formType == certId) with
            | some cert => some { cert with
                id := histCertId entry.form.formId cert.formType,
                employeeId := entry.form.employeeId }
            | none => none
          else none
        | none => none
      | none => none
    match hit with
    | some cert => some cert
    | none => searchHistoryCert rest employeeId certId

/-- Core of the download handler: find the certificate among the active
records by id and owner, else (only for `hist_` ids) scan the history;
404 when nothing matched, 403 when the match belongs to someone else,
else stream it. -/
def downloadCertificate (activeCerts : List Certificate)
    (history : List HistoryEntry) (employeeId certId : String) :
    DownloadResult :=
  let fromActive := activeCerts.find? (fun c =>
    c.id == certId && c.employeeId == employeeId)
  let certificate := match fromActive with
    | some cert => some cert
    | none =>
      if strStartsWith certId "hist_" then
        searchHistoryCert history employeeId certId
      else none
  match certificate with
  | none => .notFound
  | some cert =>
    if cert.employeeId != employeeId then .forbidden
    else .ok cert

/-! ## Certificate listing (`GET /certificates`) -/

/-- One entry of the merged certificate listing. Fields the source sets
only on one of the two read paths are `Option`s (`employeeId` only on
active entries, `employeeName`/`noDuesType`/`completedAt` only on history
entries). -/
structure CertEntry where
  id : String
  employeeId : Option String
  formId : String
  formType : String
  filename : String
  filepath : String
  displayName : String
  generatedAt : Option Int
  completedAt : Option Int
  source : String
  status : String
  employeeName : Option String
  noDuesType : Option String
deriving DecidableEq, Repr

/-- The listing entry built from an active certificate record
(`{...cert, source, displayName, status: 'Active'}`). `displayNameOf`
models `getFormDisplayName` (presentational lookup table). -/
def activeListEntry (displayNameOf : String → String) (cert : Certificate) :
    CertEntry :=
  { id := cert.id
    employeeId := some cert.employeeId
    formId := cert.formId
    formType := cert.formType
    filename := cert.filename
    filepath := cert.filepath
    displayName := displayNameOf cert.formType
    generatedAt := cert.generatedAt
    completedAt := none
    source := "active"
    status := "Active"
    employeeName := none
    noDuesType := none }

/-- The listing entry built from a certificate preserved inside a history
entry. -/
def histListEntry (displayNameOf : String → String) (entry : HistoryEntry)
    (cert : Certificate) : CertEntry :=
  { id := histCertId entry.form.formId cert.formType
    employeeId := none
    formId := entry.form.formId
    formType := cert.formType
    filename := cert.filename
    filepath := cert.filepath
    displayName := displayNameOf cert.formType
    generatedAt := cert.generatedAt
    completedAt := some entry.completedAt
    source := "history"
    status := "Completed"
    employeeName := some (if entry.form.employeeName ≠ "" then
        entry.form.employeeName else entry.form.name)
    noDuesType := some entry.form.noDuesType }

/-- The certificates contributed by the history collection: entries owned
by the employee whose `preservedData?.certificates` is present (an empty
array is truthy and passes the filter), flattened. -/
def historyListEntries (displayNameOf : String → String)
    (history : List HistoryEntry) (employeeId : String) : List CertEntry :=
  (history.filter (fun h =>
      h.form.employeeId == employeeId &&
      (match h.preservedData with
       | some preserved => preserved.certificates.isSome
       | none => false))).flatMap (fun h =>
    match h.preservedData with
    | some preserved => (preserved.certificates.getD []).map (histListEntry displayNameOf h)
    | none => [])

/-- The active-store certificates owned by the employee, mapped to listing
entries. -/
def activeListEntries (displayNameOf : String → String)
    (activeCerts : List Certificate) (employeeId : String) : List CertEntry :=
  (activeCerts.filter (fun c => c.employeeId == employeeId)).map
    (activeListEntry displayNameOf)

/-- The sort key `new Date(x.generatedAt || x.completedAt)` of the listing
sort (an entry carrying neither date is modelled at epoch 0). -/
def CertEntry.listKey (e : CertEntry) : Int :=
  match e.generatedAt with
  | some g => g
  | none => e.completedAt.getD 0

/-- Core of the `GET /certificates` handler: merge the active-store
entries and the history-preserved entries for the employee and sort the
union descending by generation date. -/
def listCertificates (displayNameOf : String → String)
    (activeCerts : List Certificate) (history : List HistoryEntry)
    (employeeId : String) : List CertEntry :=
  sortBy (fun a b => b.listKey ≤ a.listKey)
    (activeListEntries displayNameOf activeCerts employeeId ++
     historyListEntries displayNameOf history employeeId)

/-! ## Record Store Adapter (`loadJSON` and the collection guards) -/

/-- `loadJSON(filePath)`: the file contents are abstracted as
`Option String` (`none` = `existsSync` false) and `JSON.parse` as the
oracle `parse` (`none` = a thrown parse error). A missing file returns
`{}` directly; the surrounding `try/catch` turns a parse throw into `{}`
as well, so every call returns a value. -/
def loadJSON (parse : String → Option JsVal) (contents : Option String) :
    JsVal :=
  match contents with
  | none => .jobj []
  | some text =>
    match parse text with
    | some value => value
    | none => .jobj []

/-- The `Array.isArray(data) ? data : []` guard every collection-reading
endpoint applies to the result of `loadJSON`. -/
def arrayGuard (v : JsVal) : List JsVal :=
  match v with
  | .jarr xs => xs
  | _ => []

/-- A collection read as performed by the endpoints: guarded load. -/
def loadCollection (parse : String → Option JsVal)
    (contents : Option String) : List JsVal :=
  arrayGuard (loadJSON parse contents)

/-! ## Spec-side definitions and discriminators -/

/-- ASCII lower-casing of one character, for the spec-side
case-insensitive comparison. -/
def asciiLowerChar (c : Char) : Char :=
  if 'A' ≤ c ∧ c ≤ 'Z' then Char.ofNat (c.toNat + 32) else c

/-- ASCII lower-casing of a string. -/
def asciiLower (s : String) : String :=
  String.mk (s.data.map asciiLowerChar)

/-- The claim-side notion of an active status, following the spec's words:
pending matched case-insensitively, the other three statuses exactly. Used
only to compare the specified allow-list with `activeStatuses` from the
code. -/
def specActiveStatus (s : String) : Bool :=
  asciiLower s == "pending" || s == "approved" || s == "Submitted to HOD" ||
    s == "Submitted to IT"

def FinalSubmitResult.isOk : FinalSubmitResult → Bool
  | .ok _ _ => true
  | _ => false

def DownloadResult.isForbidden : DownloadResult → Bool
  | .forbidden => true
  | _ => false

/-! ## Concrete records used to evaluate the functions at specific
inputs -/

/-- A case whose status is the upper-case spelling of pending, which the
spec-side active predicate matches. -/
def upperPendingCase : Form :=
  { formId := "F1", employeeId := "EMP001", status := "PENDING",
    submissionDate := some 1, lastUpdated := 1 }

/-- A well-formed submission for the same employee. -/
def sampleSubmission : Submission :=
  { name := "Alice", employeeId := "EMP001", email := "alice@example.com",
    department := "IT", noDuesType := "retirement", reason := "end of term" }

/-- A case already past HOD review. -/
def terminalCase : Form :=
  { formId := "F1", employeeId := "EMP001", status := "IT Completed",
    submissionDate := some 1, lastUpdated := 1 }

/-- A freshly submitted case still pending. -/
def pendingCase : Form :=
  { formId := "F3", employeeId := "EMP002", status := "pending",
    submissionDate := some 2, lastUpdated := 2 }

/-- The earlier of two cases of employee EMP003. -/
def olderCase : Form :=
  { formId := "F10", employeeId := "EMP003", status := "pending",
    submissionDate := some 1, lastUpdated := 1 }

/-- The later of two cases of employee EMP003. -/
def newerCase : Form :=
  { formId := "F11", employeeId := "EMP003", status := "rejected",
    submissionDate := some 5, lastUpdated := 5 }

/-- A completed case carrying a certificates list but no `itProcessing`
record, which routes the certificates-generated event date through the
clock. -/
def clockSensitiveCase : Form :=
  { formId := "F1", employeeId := "EMP001", status := "IT Completed",
    certificates := some [], lastUpdated := 0 }

/-- A stand-in hex digest used to evaluate `certFileName` at concrete
inputs (only the digest input matters to the statements). -/
def identityDigest : String → String := fun s => s

/-- A stand-in for the presentational `getFormDisplayName` table. -/
def plainDisplayName : String → String := fun s => s

/-- An active-store certificate owned by a different employee than the
requester of the scenarios below. -/
def foreignCert : Certificate :=
  { id := "CERT1", employeeId := "EMP002", formId := "F1",
    formType := "efileForm", filename := "c.pdf", filepath := "p/c.pdf",
    generatedAt := some 10 }

/-- An active-store certificate of employee EMP001. -/
def dupCert : Certificate :=
  { id := "CERT1", employeeId := "EMP001", formId := "F1",
    formType := "efileForm", filename := "c.pdf", filepath := "p/c.pdf",
    generatedAt := some 10 }

/-- A history entry that preserves a snapshot of the same certificate
(dual-location state after archival). -/
def dupHistoryEntry : HistoryEntry :=
  { form := { formId := "F1", employeeId := "EMP001", status := "IT Completed" }
    completedAt := 20
    finalStatus := "IT Completed"
    historyType := "completed_application"
    preservedData := some {
      certificates := some [dupCert]
      hodApproval := none
      itProcessing := none
      assignedForms := []
      formResponses := [] } }

/-- An archived case for one of the history-listing scenarios. -/
def histEntryOf (formId : String) (completedAt : Int) (cert : Certificate) :
    HistoryEntry :=
  { form := { formId := formId, employeeId := "EMP001", status := "IT Completed" }
    completedAt := completedAt
    finalStatus := "IT Completed"
    historyType := "completed_application"
    preservedData := some {
      certificates := some [cert]
      hodApproval := none
      itProcessing := none
      assignedForms := []
      formResponses := [] } }

/-- A renderer oracle that succeeds on every entry. -/
def renderAll : String → JsVal → Except String Certificate :=
  fun formType _ => .ok { formType := formType, filename := formType ++ ".pdf" }

/-- A renderer oracle that succeeds only on the disposal entry and times
out on every other entry. -/
def renderDisposalOnly : String → JsVal → Except String Certificate :=
  fun formType _ =>
    if formType == "disposalFormData" then
      .ok { formType := formType, filename := formType ++ ".pdf" }
    else .error "PDF generation timeout"

/-- A parse oracle that always throws, modelling a corrupt store file. -/
def failParse : String → Option JsVal := fun _ => none

/-- A terminal case with data in every preserved field, for evaluating
archival. -/
def richTerminalCase : Form :=
  { formId := "F7", employeeId := "EMP001", status := "IT Completed",
    submissionDate := some 1, lastUpdated := 6,
    assignedForms := some [{ title := "Disposal Form", path := "/forms/disposal" }],
    formResponses := some [("disposalFormData", JsVal.jobj [])],
    hodApproval := some { approvedBy := "HOD", approvedAt := 3 },
    itProcessing := some { action := "completed", processedBy := "IT", processedAt := 5, remarks := "" },
    certificates := some [dupCert] }

/-- A second active certificate of employee EMP001. -/
def secondActiveCert : Certificate :=
  { dupCert with
      id := "CERT2"
      formType := "disposalForm"
      generatedAt := some 11 }

/-- Two active certificates of employee EMP001. -/
def listScenarioActive : List Certificate := [dupCert, secondActiveCert]

/-- Three archived cases of employee EMP001, each preserving one
certificate. -/
def listScenarioHistory : List HistoryEntry :=
  [histEntryOf "F2" 21 { dupCert with formId := "F2", generatedAt := some 13 },
   histEntryOf "F3" 22 { dupCert with formId := "F3", generatedAt := some 14 },
   histEntryOf "F4" 23 { dupCert with formId := "F4", generatedAt := some 15 }]

/-! ## Sorting lemmas -/

theorem length_insertBy {α : Type} (le : α → α → Bool) (a : α) (l : List α) :
    (insertBy le a l).length = l.length + 1 := by
  induction l with
  | nil => rfl
  | cons b bs ih =>
    by_cases h : le a b = true <;> simp [insertBy, h, ih]

theorem length_sortBy {α : Type} (le : α → α → Bool) (l : List α) :
    (sortBy le l).length = l.length := by
  induction l with
  | nil => rfl
  | cons a as ih => simp [sortBy, length_insertBy, ih]

theorem perm_insertBy {α : Type} (le : α → α → Bool) (a : α) (l : List α) :
    (insertBy le a l).Perm (a :: l) := by
  induction l with
  | nil => simp [insertBy]
  | cons b bs ih =>
    by_cases h : le a b = true
    · simp [insertBy, h]
    · simp only [insertBy, h, if_false, Bool.false_eq_true]
      exact (ih.cons b).trans (List.Perm.swap a b bs)

theorem perm_sortBy {α : Type} (le : α → α → Bool) (l : List α) :
    (sortBy le l).Perm l := by
  induction l with
  | nil => simp [sortBy]
  | cons a as ih =>
    exact (perm_insertBy le a (sortBy le as)).trans (ih.cons a)

theorem mem_insertBy {α : Type} (le : α → α → Bool) (a x : α) (l : List α) :
    x ∈ insertBy le a l ↔ x = a ∨ x ∈ l := by
  rw [(perm_insertBy le a l).mem_iff]
  simp

theorem mem_sortBy {α : Type} (le : α → α → Bool) (x : α) (l : List α) :
    x ∈ sortBy le l ↔ x ∈ l :=
  (perm_sortBy le l).mem_iff

theorem pairwise_insertBy {α : Type} (le : α → α → Bool)
    (htot : ∀ a b : α, le a b = true ∨ le b a = true)
    (htrans : ∀ a b c : α, le a b = true → le b c = true → le a c = true)
    (a : α) (l : List α)
    (hl : l.Pairwise (fun x y => le x y = true)) :
    (insertBy le a l).Pairwise (fun x y => le x y = true) := by
  induction l with
  | nil => simp [insertBy]
  | cons b bs ih =>
    rcases List.pairwise_cons.mp hl with ⟨hb, hbs⟩
    simp only [insertBy]
    by_cases h : le a b = true
    · rw [if_pos h]
      refine List.pairwise_cons.mpr ⟨?_, hl⟩
      intro y hy
      rcases List.mem_cons.mp hy with hy | hy
      · exact hy ▸ h
      · exact htrans a b y h (hb y hy)
    · rw [if_neg h]
      refine List.pairwise_cons.mpr ⟨?_, ih hbs⟩
      intro y hy
      rcases (mem_insertBy le a y bs).mp hy with hy | hy
      · rw [hy]
        rcases htot a b with hab | hba
        · exact absurd hab h
        · exact hba
      · exact hb y hy

theorem pairwise_sortBy {α : Type} (le : α → α → Bool)
    (htot : ∀ a b : α, le a b = true ∨ le b a = true)
    (htrans : ∀ a b c : α, le a b = true → le b c = true → le a c = true)
    (l : List α) :
    (sortBy le l).Pairwise (fun x y => le x y = true) := by
  induction l with
  | nil => simp [sortBy]
  | cons a as ih => exact pairwise_insertBy le htot htrans a (sortBy le as) ih

/-! ## Aggregation-engine lemmas -/

theorem getLatestFormForEmployee_eq_head (allForms : List Form)
    (employeeId : String) (allowedStatuses : Option (List String)) :
    getLatestFormForEmployee allForms employeeId allowedStatuses =
      (sortBy (fun a b => b.sortKey ≤ a.sortKey)
        (candidateForms allForms employeeId allowedStatuses)).head? := by
  cases allowedStatuses <;> rfl

theorem getLatestFormForEmployee_eq_none_iff (allForms : List Form)
    (employeeId : String) (allowedStatuses : Option (List String)) :
    getLatestFormForEmployee allForms employeeId allowedStatuses = none ↔
      candidateForms allForms employeeId allowedStatuses = [] := by
  rw [getLatestFormForEmployee_eq_head, List.head?_eq_none_iff]
  constructor
  · intro h
    have := length_sortBy (fun a b : Form => b.sortKey ≤ a.sortKey)
      (candidateForms allForms employeeId allowedStatuses)
    rw [h] at this
    exact List.eq_nil_of_length_eq_zero this.symm
  · intro h
    rw [h]
    rfl

theorem getLatestFormForEmployee_mem (allForms : List Form)
    (employeeId : String) (allowedStatuses : Option (List String)) (f : Form)
    (h : getLatestFormForEmployee allForms employeeId allowedStatuses = some f) :
    f ∈ candidateForms allForms employeeId allowedStatuses := by
  rw [getLatestFormForEmployee_eq_head] at h
  have hmem := List.mem_of_mem_head? (Option.mem_def.mpr h)
  exact (mem_sortBy _ f _).mp hmem

theorem candidateForms_some_eq_filter (allForms : List Form)
    (employeeId : String) (statuses : List String) :
    candidateForms allForms employeeId (some statuses) =
      allForms.filter (fun f =>
        f.employeeId == employeeId && statuses.contains f.status) := by
  show (allForms.filter (fun f => f.employeeId == employeeId)).filter
      (fun f => statuses.contains f.status) = _
  rw [List.filter_filter]
  exact List.filter_congr (fun a _ => Bool.and_comm _ _)

theorem candidateForms_some_eq_nil_iff (allForms : List Form)
    (employeeId : String) (statuses : List String) :
    candidateForms allForms employeeId (some statuses) = [] ↔
      ∀ f ∈ allForms, ¬(f.employeeId = employeeId ∧ f.status ∈ statuses) := by
  rw [candidateForms_some_eq_filter, List.filter_eq_nil_iff]
  constructor
  · intro h f hf hc
    apply h f hf
    simp [hc.1, hc.2]
  · intro h f hf hp
    simp only [Bool.and_eq_true, beq_iff_eq] at hp
    refine h f hf ⟨hp.1, ?_⟩
    have := hp.2
    simpa using this

theorem candidateForms_mem_some (allForms : List Form) (employeeId : String)
    (statuses : List String) (f : Form)
    (h : f ∈ candidateForms allForms employeeId (some statuses)) :
    f ∈ allForms ∧ f.employeeId = employeeId ∧ f.status ∈ statuses := by
  rw [candidateForms_some_eq_filter] at h
  have h2 := List.mem_filter.mp h
  obtain ⟨hmem, hp⟩ := h2
  simp only [Bool.and_eq_true, beq_iff_eq] at hp
  exact ⟨hmem, hp.1, by simpa using hp.2⟩

/-! ## Claim C2 -/

/-- C2: the current-case resolution is recency-correct and total. Given a
collection whose cases for the employee are exactly two records with
strictly ordered date keys, `getLatestFormForEmployee` returns the later
one in either collection order; with no matching case after the optional
status filter it returns `none`; and the tracking endpoint maps that
`none` to the success result `noApplication` rather than an error. -/
theorem C2_aggregation_resolution :
    (∀ (allForms : List Form) (employeeId : String) (c1 c2 : Form),
      (allForms.filter (fun f => f.employeeId == employeeId) = [c1, c2] ∨
       allForms.filter (fun f => f.employeeId == employeeId) = [c2, c1]) →
      c1.sortKey < c2.sortKey →
      getLatestFormForEmployee allForms employeeId none = some c2)
  ∧ (∀ (allForms : List Form) (employeeId : String)
      (allowedStatuses : Option (List String)),
      candidateForms allForms employeeId allowedStatuses = [] →
      getLatestFormForEmployee allForms employeeId allowedStatuses = none)
  ∧ (∀ (allForms : List Form) (employeeId : String) (now : Int),
      candidateForms allForms employeeId none = [] →
      trackingDetails allForms employeeId now = .noApplication) := by
  refine ⟨?_, ?_, ?_⟩
  · intro allForms employeeId c1 c2 horder hdate
    rw [getLatestFormForEmployee_eq_head]
    have hcand : candidateForms allForms employeeId none =
        allForms.filter (fun f => f.employeeId == employeeId) := rfl
    rcases horder with h | h
    · rw [hcand, h]
      have hno : ¬(c2.sortKey ≤ c1.sortKey) := not_le.mpr hdate
      simp [sortBy, insertBy, hno]
    · rw [hcand, h]
      have hyes : c1.sortKey ≤ c2.sortKey := le_of_lt hdate
      simp [sortBy, insertBy, hyes]
  · intro allForms employeeId allowedStatuses h
    exact (getLatestFormForEmployee_eq_none_iff _ _ _).mpr h
  · intro allForms employeeId now h
    unfold trackingDetails
    rw [(getLatestFormForEmployee_eq_none_iff _ _ _).mpr h]

/-- C2 witness: the resolution picks the later of two concrete cases and
the tracking endpoint answers `noApplication` on an empty collection. -/
theorem C2_witness :
    getLatestFormForEmployee [olderCase, newerCase] "EMP003" none =
      some newerCase ∧
    trackingDetails [] "EMP000" 0 = TrackingResult.noApplication := by
  obtain ⟨h1, h2, h3⟩ := C2_aggregation_resolution
  exact ⟨h1 [olderCase, newerCase] "EMP003" olderCase newerCase
    (Or.inl (by rfl)) (by decide), h3 [] "EMP000" 0 rfl⟩

/-! ## Claim C5 -/

/-- C5: archival is append-only and preserving. The history operation
produces exactly the old collection with one entry appended (so existing
entries are neither mutated nor removed), and the new entry's
`preservedData` carries `certificates`, `hodApproval`, `itProcessing`,
`assignedForms` and `formResponses` structurally unchanged, with the
empty-list/null/empty-map defaults only when a field is absent. -/
theorem C5_archival (history : List HistoryEntry) (formData : Form)
    (now : Int) :
    moveCompletedFormToHistory history formData now =
      history ++ [archiveEntry formData now]
  ∧ (moveCompletedFormToHistory history formData now).take history.length =
      history
  ∧ (archiveEntry formData now).form = formData
  ∧ (archiveEntry formData now).finalStatus = formData.status
  ∧ ∃ preserved, (archiveEntry formData now).preservedData = some preserved
      ∧ (∀ certs, formData.certificates = some certs →
          preserved.certificates = some certs)
      ∧ (formData.certificates = none → preserved.certificates = some [])
      ∧ preserved.hodApproval = formData.hodApproval
      ∧ preserved.itProcessing = formData.itProcessing
      ∧ (∀ forms, formData.assignedForms = some forms →
          preserved.assignedForms = forms)
      ∧ (formData.assignedForms = none → preserved.assignedForms = [])
      ∧ (∀ responses, formData.formResponses = some responses →
          preserved.formResponses = responses)
      ∧ (formData.formResponses = none → preserved.formResponses = []) := by
  refine ⟨rfl, List.take_left history [archiveEntry formData now], rfl, rfl,
    ⟨{ certificates := some (formData.certificates.getD []),
       hodApproval := formData.hodApproval,
       itProcessing := formData.itProcessing,
       assignedForms := formData.assignedForms.getD [],
       formResponses := formData.formResponses.getD [] },
      rfl, ?_, ?_, rfl, rfl, ?_, ?_, ?_, ?_⟩⟩
  · intro certs h
    simp [h]
  · intro h
    simp [h]
  · intro forms h
    simp [h]
  · intro h
    simp [h]
  · intro responses h
    simp [h]
  · intro h
    simp [h]

/-- C5 witness: archiving a concrete terminal case appends exactly its
entry, whose preserved snapshot matches the case's fields. -/
theorem C5_witness :
    moveCompletedFormToHistory [] richTerminalCase 99 =
      [archiveEntry richTerminalCase 99] ∧
    (archiveEntry richTerminalCase 99).preservedData =
      some { certificates := some [dupCert],
             hodApproval := richTerminalCase.hodApproval,
             itProcessing := richTerminalCase.itProcessing,
             assignedForms := [{ title := "Disposal Form", path := "/forms/disposal" }],
             formResponses := [("disposalFormData", JsVal.jobj [])] } := by
  refine ⟨?_, rfl⟩
  have h := (C5_archival [] richTerminalCase 99).1
  simpa using h

/-! ## Claim C10 -/

/-- C10: the record-store load is total and guarded. A missing file and a
file whose contents fail to parse both yield the empty object, and the
collection guard turns every non-array result into the empty collection,
so a corrupt or absent store is indistinguishable from an empty
collection behind the guard used by every collection-reading endpoint. -/
theorem C10_load_guard (parse : String → Option JsVal)
    (contents : Option String) :
    (contents = none → loadJSON parse contents = .jobj [] ∧
      loadCollection parse contents = [])
  ∧ (∀ text, contents = some text → parse text = none →
      loadJSON parse contents = .jobj [] ∧ loadCollection parse contents = [])
  ∧ (∀ elements, loadJSON parse contents = .jarr elements →
      loadCollection parse contents = elements)
  ∧ (∀ fields, loadJSON parse contents = .jobj fields →
      loadCollection parse contents = []) := by
  refine ⟨?_, ?_, ?_, ?_⟩
  · intro h
    subst h
    exact ⟨rfl, rfl⟩
  · intro text hc hp
    subst hc
    simp [loadJSON, loadCollection, arrayGuard, hp]
  · intro elements h
    unfold loadCollection
    rw [h]
    rfl
  · intro fields h
    unfold loadCollection
    rw [h]
    rfl

/-- C10 witness: a corrupt store file loads as the empty object and reads
as the empty collection. -/
theorem C10_witness :
    loadJSON failParse (some "corrupt bytes") = JsVal.jobj [] ∧
    loadCollection failParse (some "corrupt bytes") = [] := by
  exact (C10_load_guard failParse (some "corrupt bytes")).2.1 "corrupt bytes"
    rfl rfl

/-! ## Pipeline lemmas -/

theorem successfulCerts_certOutcomes
    (render : String → JsVal → Except String Certificate)
    (entries : List (String × JsVal)) :
    successfulCerts (certOutcomes render entries) =
      entries.filterMap (fun p => (render p.1 p.2).toOption) := by
  unfold successfulCerts certOutcomes
  rw [List.filterMap_map]
  have hfun : ((fun r => match r with
      | CertOutcome.success cert => some cert
      | CertOutcome.failed _ _ => none) ∘ (fun p : String × JsVal =>
        match render p.1 p.2 with
        | .ok cert => CertOutcome.success cert
        | .error msg => CertOutcome.failed p.1 msg)) =
      fun p : String × JsVal => (render p.1 p.2).toOption := by
    funext p
    simp only [Function.comp]
    cases render p.1 p.2 <;> rfl
  rw [hfun]

theorem generateFormCertificates_eq
    (render : String → JsVal → Except String Certificate)
    (formId : String) (formResponses : List (String × JsVal))
    (hid : formId ≠ "") :
    generateFormCertificates render formId formResponses =
      (if (formResponses.filter (fun p => p.2.isTruthyObject)).isEmpty then
        Except.error "No valid form responses found"
      else if ((formResponses.filter (fun p => p.2.isTruthyObject)).filterMap
          (fun p => (render p.1 p.2).toOption)).isEmpty then
        Except.error "No certificates were generated successfully"
      else Except.ok ((formResponses.filter (fun p => p.2.isTruthyObject)).filterMap
          (fun p => (render p.1 p.2).toOption))) := by
  have hbeq : (formId == "") = false := by
    simpa using hid
  simp only [generateFormCertificates, hbeq, Bool.false_eq_true, if_false,
    successfulCerts_certOutcomes]

/-! ## Claim C4 -/

/-- C4: the certificate pipeline fails as a whole exactly when there is no
valid entry or no entry renders successfully; otherwise it returns the
successful artifacts of all valid entries, and a failing entry never
removes another entry's success from the result (each entry's outcome is
decided by its own render result alone). Stated for genuine form ids
(the source also rejects an empty id before looking at the entries). -/
theorem C4_pipeline_characterization
    (render : String → JsVal → Except String Certificate)
    (formId : String) (formResponses : List (String × JsVal))
    (hid : formId ≠ "") :
    ((∃ msg, generateFormCertificates render formId formResponses =
        .error msg) ↔
      formResponses.filter (fun p => p.2.isTruthyObject) = [] ∨
      (formResponses.filter (fun p => p.2.isTruthyObject)).filterMap
        (fun p => (render p.1 p.2).toOption) = [])
  ∧ ((formResponses.filter (fun p => p.2.isTruthyObject)).filterMap
        (fun p => (render p.1 p.2).toOption) ≠ [] →
      generateFormCertificates render formId formResponses =
        .ok ((formResponses.filter (fun p => p.2.isTruthyObject)).filterMap
          (fun p => (render p.1 p.2).toOption)))
  ∧ (∀ p ∈ formResponses.filter (fun p => p.2.isTruthyObject), ∀ cert,
      render p.1 p.2 = .ok cert →
      ∃ certs, generateFormCertificates render formId formResponses =
        .ok certs ∧ cert ∈ certs) := by
  have hgfc := generateFormCertificates_eq render formId formResponses hid
  by_cases hv : (formResponses.filter (fun p => p.2.isTruthyObject)).isEmpty = true
  · have hvnil := List.isEmpty_iff.mp hv
    rw [hgfc, if_pos hv]
    refine ⟨⟨fun _ => Or.inl hvnil, fun _ => ⟨_, rfl⟩⟩, ?_, ?_⟩
    · intro hne
      rw [hvnil] at hne
      simp at hne
    · intro p hp
      rw [hvnil] at hp
      simp at hp
  · have hvne : ¬((formResponses.filter (fun p => p.2.isTruthyObject)) = []) :=
      fun hc => hv (List.isEmpty_iff.mpr hc)
    by_cases hs : ((formResponses.filter (fun p => p.2.isTruthyObject)).filterMap
        (fun p => (render p.1 p.2).toOption)).isEmpty = true
    · have hsnil := List.isEmpty_iff.mp hs
      rw [hgfc, if_neg hv, if_pos hs]
      refine ⟨⟨fun _ => Or.inr hsnil, fun _ => ⟨_, rfl⟩⟩, ?_, ?_⟩
      · intro hne
        exact absurd hsnil hne
      · intro p hp cert hcert
        have hmem : cert ∈ (formResponses.filter
            (fun p => p.2.isTruthyObject)).filterMap
            (fun p => (render p.1 p.2).toOption) :=
          List.mem_filterMap.mpr ⟨p, hp, by rw [hcert]; rfl⟩
        rw [hsnil] at hmem
        simp at hmem
    · have hsne : ¬(((formResponses.filter (fun p => p.2.isTruthyObject)).filterMap
          (fun p => (render p.1 p.2).toOption)) = []) :=
        fun hc => hs (List.isEmpty_iff.mpr hc)
      rw [hgfc, if_neg hv, if_neg hs]
      refine ⟨⟨?_, ?_⟩, fun _ => rfl, ?_⟩
      · intro ⟨msg, hmsg⟩
        exact absurd hmsg (by simp)
      · intro hor
        rcases hor with h | h
        · exact absurd h hvne
        · exact absurd h hsne
      · intro p hp cert hcert
        exact ⟨_, rfl, List.mem_filterMap.mpr ⟨p, hp, by rw [hcert]; rfl⟩⟩

/-- C4 witness: a mixed run over one invalid entry, one rendering entry
and one timing-out entry returns exactly the artifact of the surviving
entry. -/
theorem C4_witness :
    generateFormCertificates renderDisposalOnly "F1"
      [("disposalFormData", JsVal.jobj []), ("efileFormData", JsVal.jobj []),
       ("skipped", JsVal.jstr "not an object")] =
      Except.ok [{ formType := "disposalFormData",
                   filename := "disposalFormData.pdf" }] := by
  have h := (C4_pipeline_characterization renderDisposalOnly "F1"
    [("disposalFormData", JsVal.jobj []), ("efileFormData", JsVal.jobj []),
     ("skipped", JsVal.jstr "not an object")] (by decide)).2.1 (by decide)
  exact h.trans (by rfl)

/-! ## Claim C1 -/

/-- C1 counterexample: a case whose status is the upper-case spelling
PENDING is active under the claim's case-insensitive reading, yet a new
submission by the same employee is not rejected with a conflict — the
handler's allow-list carries only the two literal spellings. -/
theorem C1_counterexample :
    specActiveStatus upperPendingCase.status = true ∧
    upperPendingCase.employeeId = sampleSubmission.employeeId ∧
    (submitNoDues [upperPendingCase] sampleSubmission (some "order.pdf")
      5 "F2").isConflict = false := by
  refine ⟨by decide, rfl, by decide⟩

/-- C1 amended: with all required fields and the file present, the
submission conflicts exactly when the employee has a case whose status is
one of the five literal strings of the handler's allow-list (both
spellings Pending and pending, Submitted to HOD, Submitted to IT,
approved — matched case-sensitively, not case-insensitively); the
conflict message carries that case's status and formId, and otherwise a
new case with status pending is appended to the collection. -/
theorem C1_submission_conflict (pendingForms : List Form) (s : Submission)
    (file : String) (now : Int) (freshId : String)
    (hname : s.name ≠ "") (hemp : s.employeeId ≠ "") (hemail : s.email ≠ "")
    (hdept : s.department ≠ "") (htype : s.noDuesType ≠ "") :
    ((∃ msg, submitNoDues pendingForms s (some file) now freshId =
        .conflict msg) ↔
      ∃ f ∈ pendingForms, f.employeeId = s.employeeId ∧
        f.status ∈ activeStatuses)
  ∧ (∀ msg, submitNoDues pendingForms s (some file) now freshId =
        .conflict msg →
      ∃ f ∈ pendingForms, f.employeeId = s.employeeId ∧
        f.status ∈ activeStatuses ∧
        msg = "You already have a " ++ f.status ++ " application (" ++
          f.formId ++ ")")
  ∧ ((∀ f ∈ pendingForms,
        ¬(f.employeeId = s.employeeId ∧ f.status ∈ activeStatuses)) →
      submitNoDues pendingForms s (some file) now freshId =
        .created (pendingForms ++ [newCaseForm s file now freshId]) freshId ∧
      (newCaseForm s file now freshId).status = "pending") := by
  have hfields : (s.name == "" || s.employeeId == "" || s.email == "" ||
      s.department == "" || s.noDuesType == "") = false := by
    simp only [Bool.or_eq_false_iff, beq_eq_false_iff_ne]
    exact ⟨⟨⟨⟨hname, hemp⟩, hemail⟩, hdept⟩, htype⟩
  cases hgl : getLatestFormForEmployee pendingForms s.employeeId
      (some activeStatuses) with
  | some existingForm =>
    have hmem := candidateForms_mem_some _ _ _ existingForm
      (getLatestFormForEmployee_mem _ _ _ existingForm hgl)
    have hsub : submitNoDues pendingForms s (some file) now freshId =
        .conflict ("You already have a " ++ existingForm.status ++
          " application (" ++ existingForm.formId ++ ")") := by
      simp only [submitNoDues, hfields, Bool.false_eq_true, if_false, hgl]
    refine ⟨⟨fun _ => ⟨existingForm, hmem.1, hmem.2.1, hmem.2.2⟩,
      fun _ => ⟨_, hsub⟩⟩, ?_, ?_⟩
    · intro msg hmsg
      rw [hsub] at hmsg
      injection hmsg with hmsg
      exact ⟨existingForm, hmem.1, hmem.2.1, hmem.2.2, hmsg.symm⟩
    · intro hnone
      exact absurd ⟨hmem.2.1, hmem.2.2⟩ (hnone existingForm hmem.1)
  | none =>
    have hforall := (candidateForms_some_eq_nil_iff _ _ _).mp
      ((getLatestFormForEmployee_eq_none_iff _ _ _).mp hgl)
    have hsub : submitNoDues pendingForms s (some file) now freshId =
        .created (pendingForms ++ [newCaseForm s file now freshId]) freshId := by
      simp only [submitNoDues, hfields, Bool.false_eq_true, if_false, hgl]
    refine ⟨⟨?_, ?_⟩, ?_, ?_⟩
    · intro ⟨msg, hmsg⟩
      rw [hsub] at hmsg
      exact SubmitResult.noConfusion hmsg
    · intro ⟨f, hf, h1, h2⟩
      exact absurd ⟨h1, h2⟩ (hforall f hf)
    · intro msg hmsg
      rw [hsub] at hmsg
      exact SubmitResult.noConfusion hmsg
    · intro _
      exact ⟨hsub, rfl⟩

/-- C1 witness: with no prior case the concrete submission is created
with status pending and appended. -/
theorem C1_witness :
    submitNoDues [] sampleSubmission (some "order.pdf") 5 "F2" =
      SubmitResult.created [newCaseForm sampleSubmission "order.pdf" 5 "F2"]
        "F2" := by
  have h := (C1_submission_conflict [] sampleSubmission "order.pdf" 5 "F2"
    (by decide) (by decide) (by decide) (by decide) (by decide)).2.2
    (by intro f hf; simp at hf)
  simpa using h.1

/-! ## Claim C3 -/

/-- C3 counterexample: the final-submit handler never checks the current
case's status. A case already in IT Completed, with valid payloads, is
still transitioned to Submitted to HOD. -/
theorem C3_counterexample :
    terminalCase.status ≠ "pending" ∧
    finalSubmit [terminalCase] "EMP001" (some (JsVal.jobj []))
        (some (JsVal.jobj [])) (some (JsVal.jobj [])) none 9 =
      FinalSubmitResult.ok
        [{ terminalCase with
            formResponses := some [("disposalFormData", JsVal.jobj []),
              ("efileFormData", JsVal.jobj []),
              ("form365TransferData", JsVal.jobj [])],
            status := "Submitted to HOD",
            finalSubmittedAt := some 9,
            lastUpdated := 9 }] "F1" := by
  exact ⟨by decide, by rfl⟩

/-- C3 amended: final submit resolves the employee's latest case with no
status filter and, when the disposal payload and the e-file payload are
truthy objects and at least one Form-365 payload is a truthy object, sets
that case's status to Submitted to HOD regardless of its current status;
each of the three payload groups failing yields its own distinct client
error, and a missing case yields not-found. -/
theorem C3_final_submit_characterization (pendingForms : List Form)
    (employeeId : String) (dp ef t d : Option JsVal) (now : Int) :
    (getLatestFormForEmployee pendingForms employeeId none = none →
      finalSubmit pendingForms employeeId dp ef t d now = .notFound)
  ∧ (∀ latestForm,
      getLatestFormForEmployee pendingForms employeeId none = some latestForm →
      (validPayload dp = false →
        finalSubmit pendingForms employeeId dp ef t d now = .invalidDisposal)
    ∧ (validPayload dp = true → validPayload ef = false →
        finalSubmit pendingForms employeeId dp ef t d now = .invalidEfile)
    ∧ (validPayload dp = true → validPayload ef = true →
        validPayload t = false → validPayload d = false →
        finalSubmit pendingForms employeeId dp ef t d now = .invalidForm365)
    ∧ (∀ dv ev, dp = some dv → ef = some ev →
        validPayload dp = true → validPayload ef = true →
        (validPayload t = true ∨ validPayload d = true) →
        ∃ idx baseForm, pendingForms[idx]? = some baseForm ∧
          finalSubmit pendingForms employeeId dp ef t d now =
            .ok (pendingForms.set idx (finalizeForm baseForm dv ev t d now))
              baseForm.formId ∧
          (finalizeForm baseForm dv ev t d now).status =
            "Submitted to HOD")) := by
  constructor
  · intro h
    simp only [finalSubmit, h]
  · intro latestForm hl
    have hlmem : latestForm ∈ pendingForms := by
      have h1 := getLatestFormForEmployee_mem _ _ _ _ hl
      have h2 : latestForm ∈ pendingForms.filter
          (fun f => f.employeeId == employeeId) := h1
      exact (List.mem_filter.mp h2).1
    have hidx : pendingForms.findIdx
        (fun f => f.formId == latestForm.formId) < pendingForms.length :=
      List.findIdx_lt_length_of_exists ⟨latestForm, hlmem, by simp⟩
    have hbase : pendingForms[pendingForms.findIdx
        (fun f => f.formId == latestForm.formId)]? =
        some (pendingForms.get ⟨pendingForms.findIdx
          (fun f => f.formId == latestForm.formId), hidx⟩) := by
      simp [List.getElem?_eq_getElem hidx]
    refine ⟨?_, ?_, ?_, ?_⟩
    · intro hdp
      simp only [finalSubmit, hl, hbase, hdp, Bool.not_false, if_true]
    · intro hdp hef
      simp only [finalSubmit, hl, hbase, hdp, hef, Bool.not_true,
        Bool.not_false, Bool.false_eq_true, if_false, if_true]
    · intro hdp hef ht hd
      simp only [finalSubmit, hl, hbase, hdp, hef, ht, hd, Bool.not_true,
        Bool.not_false, Bool.false_eq_true, if_false, Bool.and_self, if_true]
    · intro dv ev hdv hev hdp hef hor
      refine ⟨pendingForms.findIdx (fun f => f.formId == latestForm.formId),
        pendingForms.get ⟨pendingForms.findIdx
          (fun f => f.formId == latestForm.formId), hidx⟩, hbase, ?_, rfl⟩
      have h365 : (!validPayload t && !validPayload d) = false := by
        rcases hor with h | h <;> simp [h]
      subst hdv
      subst hev
      simp only [finalSubmit, hl, hbase, hdp, hef, h365, Bool.not_true,
        Bool.false_eq_true, if_false]

/-- C3 witness: a concrete pending case with valid payloads final-submits
successfully. -/
theorem C3_witness :
    (finalSubmit [pendingCase] "EMP002" (some (JsVal.jobj []))
      (some (JsVal.jobj [])) none (some (JsVal.jobj [])) 9).isOk = true := by
  have h := (C3_final_submit_characterization [pendingCase] "EMP002"
      (some (JsVal.jobj [])) (some (JsVal.jobj [])) none
      (some (JsVal.jobj [])) 9).2 pendingCase (by rfl)
  obtain ⟨-, -, -, hok⟩ := h
  obtain ⟨idx, baseForm, -, heq, -⟩ := hok (JsVal.jobj []) (JsVal.jobj [])
    rfl rfl rfl rfl (Or.inr rfl)
  rw [heq]
  rfl

/-! ## Timeline lemmas -/

theorem pairwise_le_sortBy_dates (l : List TimelineEvent) :
    (sortBy (fun a b => a.date ≤ b.date) l).Pairwise
      (fun a b => a.date ≤ b.date) := by
  have h := pairwise_sortBy (fun a b : TimelineEvent => a.date ≤ b.date)
    (fun a b => by
      rcases Int.le_total a.date b.date with h | h
      · exact Or.inl (by simpa using h)
      · exact Or.inr (by simpa using h))
    (fun a b c hab hbc => by
      simp only [decide_eq_true_eq] at hab hbc ⊢
      exact le_trans hab hbc) l
  exact h.imp (fun hab => by simpa using hab)

/-! ## Claim C6 -/

/-- C6 counterexample: the timeline builder is not a pure function of the
case record alone — for a completed case carrying a certificates list but
no itProcessing record, the certificates-generated event's date is a
fresh clock read, so the same record yields different timelines at
different times. -/
theorem C6_counterexample :
    buildTimelineData clockSensitiveCase 0 ≠
      buildTimelineData clockSensitiveCase 1 := by
  decide

/-- C6 amended: the timeline builder depends only on the case record and
the clock, and the clock is consulted only for the certificates-generated
event's date when itProcessing is absent; on every case with itProcessing
present, or not in status IT Completed, or without a certificates list,
it is a pure function of the record. Its output is always sorted
ascending by each event's own date; a pending case with only
submissionDate set yields exactly the submitted event, and with
additionally a hodApproval object exactly those two events ordered by
their own dates ascending. -/
theorem C6_timeline_properties :
    (∀ (f : Form) (now : Int),
      (buildTimelineData f now).Pairwise (fun a b => a.date ≤ b.date))
  ∧ (∀ (f : Form) (n1 n2 : Int),
      f.itProcessing.isSome = true ∨ f.status ≠ "IT Completed" ∨
        f.certificates = none →
      buildTimelineData f n1 = buildTimelineData f n2)
  ∧ (∀ (f : Form) (now d : Int),
      f.status = "pending" → f.submissionDate = some d →
      f.assignedForms = none → f.formResponses = none →
      f.hodApproval = none → f.itProcessing = none →
      buildTimelineData f now = [submittedEvent f d])
  ∧ (∀ (f : Form) (now d : Int) (approval : HodApproval),
      f.status = "pending" → f.submissionDate = some d →
      f.assignedForms = none → f.formResponses = none →
      f.hodApproval = some approval → f.itProcessing = none →
      buildTimelineData f now =
        if d ≤ approval.approvedAt then
          [submittedEvent f d, hodApprovedEvent approval]
        else [hodApprovedEvent approval, submittedEvent f d]) := by
  refine ⟨?_, ?_, ?_, ?_⟩
  · intro f now
    exact pairwise_le_sortBy_dates _
  · intro f n1 n2 h
    rcases h with h | h | h
    · obtain ⟨p, hp⟩ := Option.isSome_iff_exists.mp h
      simp only [buildTimelineData, certificatesEvent, hp]
    · have hcond : ¬(f.status = "IT Completed" ∧ f.certificates.isSome = true) :=
        fun hc => h hc.1
      simp only [buildTimelineData, if_neg hcond]
    · have hcond : ¬(f.status = "IT Completed" ∧ f.certificates.isSome = true) := by
        intro hc
        rw [h] at hc
        exact Bool.false_ne_true hc.2
      simp only [buildTimelineData, if_neg hcond]
  · intro f now d h1 h2 h3 h4 h5 h6
    simp [buildTimelineData, h1, h2, h3, h4, h5, h6, sortBy, insertBy]
  · intro f now d approval h1 h2 h3 h4 h5 h6
    by_cases hd : d ≤ approval.approvedAt
    · simp [buildTimelineData, h1, h2, h3, h4, h5, h6, sortBy, insertBy, hd,
        submittedEvent, hodApprovedEvent]
    · simp [buildTimelineData, h1, h2, h3, h4, h5, h6, sortBy, insertBy, hd,
        submittedEvent, hodApprovedEvent]

/-- C6 witness: a concrete pending case with only its submission date
yields exactly the submitted event. -/
theorem C6_witness :
    buildTimelineData pendingCase 0 = [submittedEvent pendingCase 2] := by
  exact C6_timeline_properties.2.2.1 pendingCase 0 2 rfl rfl rfl rfl rfl rfl

/-! ## Claim C7 -/

/-- C7 counterexample: the filename's hash is computed from the form id,
the sub-form type and the timestamp only — no content fingerprint — so
two generations for the same case and sub-form in the same millisecond
produce the same path even with different content, and can silently
overwrite each other. -/
theorem C7_counterexample :
    JsVal.jobj [("field", JsVal.jstr "x")] ≠ JsVal.jobj [] ∧
    certFileName identityDigest "F1" "disposalForm"
        (JsVal.jobj [("field", JsVal.jstr "x")]) 1000 =
      certFileName identityDigest "F1" "disposalForm" (JsVal.jobj []) 1000 := by
  exact ⟨by simp, rfl⟩

/-- C7 amended: each artifact's stored filename is derivable from its
inputs, but it is a function of the form id, the sub-form type and the
generation timestamp alone — the rendered content does not influence it
(for any digest function), so uniqueness holds only across distinct
timestamps and two generations sharing a timestamp collide. -/
theorem C7_filename_content_independent (hashHex : String → String)
    (formId formType : String) (d1 d2 : JsVal) (timestamp : Nat) :
    certFileName hashHex formId formType d1 timestamp =
      certFileName hashHex formId formType d2 timestamp := rfl

/-! ## Download lemmas -/

theorem searchHistoryCert_owner (history : List HistoryEntry)
    (employeeId certId : String) (c : Certificate)
    (h : searchHistoryCert history employeeId certId = some c) :
    c.employeeId = employeeId := by
  induction history with
  | nil => exact absurd h (by simp [searchHistoryCert])
  | cons entry rest ih =>
    rw [searchHistoryCert] at h
    rcases hpd : entry.preservedData with _ | preserved
    · simp only [hpd] at h
      exact ih h
    · simp only [hpd] at h
      rcases hcs : preserved.certificates with _ | certs
      · simp only [hcs] at h
        exact ih h
      · simp only [hcs] at h
        by_cases hemp : (entry.form.employeeId == employeeId) = true
        · simp only [hemp, if_true] at h
          rcases hfind : certs.find? (fun cert =>
              histCertId entry.form.formId cert.formType == certId)
            with _ | found
          · simp only [hfind] at h
            exact ih h
          · simp only [hfind] at h
            injection h with h2
            rw [← h2]
            simpa using hemp
        · simp only [hemp, Bool.false_eq_true, if_false] at h
          exact ih h

/-! ## Claim C8 -/

/-- C8 counterexample: a certificate whose id exists in the active store
but is owned by a different employee is reported as not-found, not as the
forbidden outcome the claim requires. -/
theorem C8_counterexample :
    foreignCert.employeeId ≠ "EMP001" ∧
    downloadCertificate [foreignCert] [] "EMP001" "CERT1" =
      DownloadResult.notFound := by
  exact ⟨by decide, by rfl⟩

/-- C8 amended: ownership is enforced inside both lookups, so the
download operation never answers forbidden — a certificate owned by a
different employee is indistinguishable from a missing one (not-found) —
and every certificate it serves is owned by the requesting employee. -/
theorem C8_download_ownership (activeCerts : List Certificate)
    (history : List HistoryEntry) (employeeId certId : String) :
    downloadCertificate activeCerts history employeeId certId ≠
      DownloadResult.forbidden
  ∧ (∀ cert, downloadCertificate activeCerts history employeeId certId =
      DownloadResult.ok cert → cert.employeeId = employeeId) := by
  rcases hfa : activeCerts.find? (fun c =>
      c.id == certId && c.employeeId == employeeId) with _ | cert
  · by_cases hpre : strStartsWith certId "hist_" = true
    · rcases hsh : searchHistoryCert history employeeId certId with _ | c
      · have hres : downloadCertificate activeCerts history employeeId certId =
            DownloadResult.notFound := by
          simp only [downloadCertificate, hfa, hpre, if_true, hsh]
        rw [hres]
        exact ⟨by simp, fun cert hc => absurd hc (by simp)⟩
      · have howner := searchHistoryCert_owner _ _ _ _ hsh
        have hres : downloadCertificate activeCerts history employeeId certId =
            DownloadResult.ok c := by
          simp only [downloadCertificate, hfa, hpre, if_true, hsh,
            bne_eq_false_iff_eq.mpr howner, Bool.false_eq_true, if_false]
        rw [hres]
        refine ⟨by simp, fun cert hc => ?_⟩
        injection hc with h2
        rw [← h2]
        exact howner
    · have hres : downloadCertificate activeCerts history employeeId certId =
          DownloadResult.notFound := by
        simp only [downloadCertificate, hfa, hpre, Bool.false_eq_true, if_false]
      rw [hres]
      exact ⟨by simp, fun cert hc => absurd hc (by simp)⟩
  · have hp := List.find?_some hfa
    have howner : cert.employeeId = employeeId := by
      have := (Bool.and_eq_true _ _).mp hp
      simpa using this.2
    have hres : downloadCertificate activeCerts history employeeId certId =
        DownloadResult.ok cert := by
      simp only [downloadCertificate, hfa,
        bne_eq_false_iff_eq.mpr howner, Bool.false_eq_true, if_false]
    rw [hres]
    refine ⟨by simp, fun c2 hc => ?_⟩
    injection hc with h2
    rw [← h2]
    exact howner

/-- C8 witness: the concrete owned certificate downloads without a
forbidden outcome. -/
theorem C8_witness :
    downloadCertificate [dupCert] [] "EMP001" "CERT1" ≠
      DownloadResult.forbidden := by
  exact (C8_download_ownership [dupCert] [] "EMP001" "CERT1").1

/-! ## Claim C9 -/

/-- C9 counterexample: the listing performs no de-duplication — a
certificate present in the active store and preserved in a history
snapshot yields two entries (one per source), not one. -/
theorem C9_counterexample :
    ((listCertificates plainDisplayName [dupCert] [dupHistoryEntry]
        "EMP001").map (fun e => (e.source, e.formId, e.formType, e.filename))) =
      [("active", "F1", "efileForm", "c.pdf"),
       ("history", "F1", "efileForm", "c.pdf")] := by
  decide

/-- C9 amended: the listing merges, without any de-duplication, one entry
per active-store certificate of the employee and one entry per
certificate preserved in the employee's history snapshots — a certificate
present in both locations appears twice — each entry tagged with its
source, and sorts the union newest first by generation date (falling back
to the archival date); in particular 2 active plus 3 historical
certificates from distinct archived cases yield exactly 5 entries. -/
theorem C9_listing_characterization (displayNameOf : String → String)
    (activeCerts : List Certificate) (history : List HistoryEntry)
    (employeeId : String) :
    (listCertificates displayNameOf activeCerts history employeeId).Perm
      (activeListEntries displayNameOf activeCerts employeeId ++
       historyListEntries displayNameOf history employeeId)
  ∧ (listCertificates displayNameOf activeCerts history employeeId).length =
      (activeListEntries displayNameOf activeCerts employeeId).length +
      (historyListEntries displayNameOf history employeeId).length
  ∧ (listCertificates displayNameOf activeCerts history employeeId).Pairwise
      (fun a b => b.listKey ≤ a.listKey)
  ∧ (∀ e ∈ activeListEntries displayNameOf activeCerts employeeId,
      e.source = "active")
  ∧ (∀ e ∈ historyListEntries displayNameOf history employeeId,
      e.source = "history")
  ∧ (∀ e ∈ listCertificates displayNameOf activeCerts history employeeId,
      e.source = "active" ∨ e.source = "history") := by
  have hperm : (listCertificates displayNameOf activeCerts history
      employeeId).Perm
      (activeListEntries displayNameOf activeCerts employeeId ++
       historyListEntries displayNameOf history employeeId) :=
    perm_sortBy _ _
  have hactive : ∀ e ∈ activeListEntries displayNameOf activeCerts employeeId,
      e.source = "active" := by
    intro e he
    obtain ⟨c, -, rfl⟩ := List.mem_map.mp he
    rfl
  have hhist : ∀ e ∈ historyListEntries displayNameOf history employeeId,
      e.source = "history" := by
    intro e he
    obtain ⟨h, -, hin⟩ := List.mem_flatMap.mp he
    rcases hpd : h.preservedData with _ | preserved
    · simp only [hpd] at hin
      exact absurd hin (List.not_mem_nil e)
    · simp only [hpd] at hin
      obtain ⟨c, -, rfl⟩ := List.mem_map.mp hin
      rfl
  refine ⟨hperm, hperm.length_eq.trans (List.length_append _ _), ?_,
    hactive, hhist, ?_⟩
  · have h := pairwise_sortBy
      (fun a b : CertEntry => b.listKey ≤ a.listKey)
      (fun a b => by
        rcases Int.le_total b.listKey a.listKey with h | h
        · exact Or.inl (by simpa using h)
        · exact Or.inr (by simpa using h))
      (fun a b c hab hbc => by
        simp only [decide_eq_true_eq] at hab hbc ⊢
        exact le_trans hbc hab)
      (activeListEntries displayNameOf activeCerts employeeId ++
       historyListEntries displayNameOf history employeeId)
    exact h.imp (fun hab => by simpa using hab)
  · intro e he
    rcases List.mem_append.mp (hperm.mem_iff.mp he) with h | h
    · exact Or.inl (hactive e h)
    · exact Or.inr (hhist e h)

/-- C9 witness: two concrete active certificates and three historical
certificates from distinct archived cases list as exactly five
entries. -/
theorem C9_witness :
    (listCertificates plainDisplayName listScenarioActive
      listScenarioHistory "EMP001").length = 5 := by
  have h := (C9_listing_characterization plainDisplayName listScenarioActive
    listScenarioHistory "EMP001").2.1
  rw [h]
  rfl
